import Mathlib

/-!
Shallow embedding of the task-offloading decision layer
(`src/server.py`, `src/engine.py`, `src/config.py`).

Modelling conventions:
* Python floats that hold ping delays and timestamps are modelled as `ℚ`
  (the code only compares and subtracts them).
* The `delay` field of a probe record is an `int` `0` on failure and a
  `float` on success in the source; the scan in `select_min_ping_server`
  distinguishes them with `isinstance(delay, float)`, so the field is
  modelled by the sum type `PyNum`.
* Network effects (`ping3.ping`, `random.choice`) are nondeterministic;
  they are modelled by oracle parameters: one `PingResp` per probe and a
  natural-number index for the random choice.
* Code paths that raise Python exceptions are modelled with
  `Except String`; the string names the exception the interpreter raises.
* `copy.deepcopy` produces a structure sharing no mutable state with the
  original, so it is modelled as an ordinary value copy; mutation is
  modelled by explicit state passing.
* `list(set(xs))` deduplicates by `Server.__eq__` (address equality) with
  the first-inserted element kept as the representative; the iteration
  order of a Python set is unspecified, so we fix the first-occurrence
  order (every theorem proved about it is order-independent).
-/

namespace TEO

/-- A Python number that is either an `int` or a `float`; the scan in
`select_min_ping_server` branches on `isinstance(delay, float)`. -/
inductive PyNum where
  | intVal (n : ℤ)
  | floatVal (q : ℚ)
deriving DecidableEq

/-- Embeds the `ServerInfo` named tuple from `server.py`: one probe record. -/
structure ServerInfo where
  available : Bool
  delay : PyNum
  timestamp : ℚ
deriving DecidableEq

/-- Embeds `Server` from `server.py`: name, address, and the append-only probe
log `availability`. Python equality and hashing use `serverIP` only. -/
structure Server where
  serverName : String
  serverIP : String
  availability : List ServerInfo
deriving DecidableEq

/-- Return value of `ping3.ping`: `False` for an unknown host, `None` on
timeout, and the delay in milliseconds (a float) on success. -/
inductive PingResp where
  | falseResp
  | noneResp
  | delayResp (q : ℚ)
deriving DecidableEq

/-- Python truthiness of a `ping3.ping` return value: `False` and `None`
are falsy, a float is falsy exactly when it is `0.0`. -/
def PingResp.isTruthy : PingResp → Bool
  | .falseResp => false
  | .noneResp => false
  | .delayResp q => decide (q ≠ 0)

/-- Embeds `Server.test_availability` (`server.py` lines 76-99): appends a
`ServerInfo` record to the server's log and reports success. The branch
`if not response` catches `False`, `None` and `0.0`, recording
`ServerInfo(False, 0, t)` (an `int` zero); on success it records
`ServerInfo(True, response, t)` with the measured float delay.
The oracle pair `pr` supplies the ping response and the `time.time()`
value observed by this call. -/
def test_availability (pr : PingResp × ℚ) (s : Server) : Server × Bool :=
  match pr.1 with
  | .delayResp q =>
      if q = 0 then
        ({ s with availability := s.availability ++ [⟨false, .intVal 0, pr.2⟩] }, false)
      else
        ({ s with availability := s.availability ++ [⟨true, .floatVal q, pr.2⟩] }, true)
  | _ => ({ s with availability := s.availability ++ [⟨false, .intVal 0, pr.2⟩] }, false)

/-- The probing fan-out of `select_min_ping_server`: every registered
server is probed once (the thread pool waits for all results), each
probe appending to that server's log. -/
def probeAll (probes : List (PingResp × ℚ)) (sl : List Server) : List Server :=
  List.zipWith (fun s pr => (test_availability pr s).1) sl probes

/-- The delay the scan in `select_min_ping_server` consults:
`server.availability[0].delay`, kept only when it is a Python float
(the `isinstance(this_delay, float)` test). `none` when the log is
empty or the consulted delay is an `int`. -/
def consultedFloat (s : Server) : Option ℚ :=
  match s.availability.head? with
  | some info =>
      match info.delay with
      | .floatVal q => some q
      | .intVal _ => none
  | none => none

/-- The scan loop of `select_min_ping_server` (`server.py` lines
242-248): walks the server list keeping the running minimum `min_ping`
(initially `3000.0`) and the current best server. Reading
`availability[0]` of a server with an empty log raises `IndexError`. -/
def scanMin : List Server → ℚ → Option Server → Except String (Option Server)
  | [], _, best => .ok best
  | s :: rest, min_ping, best =>
      match s.availability.head? with
      | none => .error "IndexError: list index out of range"
      | some info =>
          match info.delay with
          | .floatVal q =>
              if q < min_ping then scanMin rest q (some s)
              else scanMin rest min_ping best
          | .intVal _ => scanMin rest min_ping best

/-- Embeds `ServerList.select_min_ping_server` (`server.py` lines 219-248),
also returning the post-probe server list (the Python method mutates
the servers it was handed by appending fresh probe records).
`ThreadPoolExecutor(max_workers=0)` raises `ValueError` when the
registry is empty. -/
def select_min_ping_server_mut (probes : List (PingResp × ℚ)) (sl : List Server) :
    Except String (Option Server × List Server) :=
  if sl.isEmpty then .error "ValueError: max_workers must be greater than 0"
  else
    let probed := probeAll probes sl
    (scanMin probed 3000 none).map (fun r => (r, probed))

/-- Result of `select_min_ping_server` without the mutated list. -/
def select_min_ping_server (probes : List (PingResp × ℚ)) (sl : List Server) :
    Except String (Option Server) :=
  (select_min_ping_server_mut probes sl).map (·.1)

/-- Embeds `ServerList.select_random_server` (`server.py` lines 251-256):
`random.choice` raises `IndexError` on an empty list; the oracle index
`idx` resolves the randomness. -/
def select_random_server (idx : ℕ) (sl : List Server) : Except String Server :=
  match sl with
  | [] => .error "IndexError: cannot choose from an empty sequence"
  | s :: rest => .ok ((s :: rest).getD (idx % (s :: rest).length) s)

/-- Embeds `ServerList.contains_ip` (`server.py` lines 155-166): membership by
`Server.__eq__`, which compares addresses. -/
def contains_ip (ip : String) (sl : List Server) : Bool :=
  sl.any (fun s => decide (s.serverIP = ip))

/-- The `list(set(...))` deduplication used by
`update_server_list_using_list` and `specify_server_list`: one entry per
address, the first-inserted `Server` kept as the representative (adding
an equal element to a Python set is a no-op). -/
def pydedup : List Server → List Server
  | [] => []
  | s :: rest => s :: (pydedup rest).filter (fun s2 => decide (s2.serverIP ≠ s.serverIP))

/-- Embeds `ServerList.update_server_list_using_list` (`server.py` lines
133-148): (a) re-probe every held server in place and keep only those
whose probe succeeds, (b) probe each candidate address from `lst` and
append it when reachable, (c) deduplicate with `list(set(...))`.
`oldProbes` and `newProbes` are the ping oracles for the two probe
passes. -/
def update_server_list_using_list (oldProbes newProbes : List (PingResp × ℚ))
    (lst : List String) (server_name : String) (sl : List Server) : List Server :=
  let kept := (sl.zip oldProbes).filterMap (fun p =>
    let r := test_availability p.2 p.1
    if r.2 then some r.1 else none)
  let added := (lst.zip newProbes).filterMap (fun p =>
    let r := test_availability p.2 (Server.mk server_name p.1 [])
    if r.2 then some r.1 else none)
  pydedup (kept ++ added)

/-- Embeds `ServerList.remove_ip` (`server.py` lines 179-186): `list.remove`
deletes the first element equal to `Server("deleted", ip)` — equality
is by address — and raises `ValueError` when no element matches. -/
def removeFirstIP (ip : String) : List Server → Option (List Server)
  | [] => none
  | s :: rest =>
      if s.serverIP = ip then some rest
      else (removeFirstIP ip rest).map (fun l => s :: l)

/-- The `server_list` of class `Config` in `config.py`. -/
def Config_server_list : List (String × String) :=
  [("LocalDevice", "127.0.0.1"), ("vagrant-ubuntu", "192.168.56.2")]

/-- The `server_list` of class `FlaskTestConfig` in `config.py`. -/
def FlaskTestConfig_server_list : List (String × String) :=
  [("LocalDevice", "127.0.0.1"), ("vagrant-ubuntu1", "192.168.56.2"),
   ("vagrant-ubuntu2", "192.168.56.3")]

/-- The `server_list` of class `SmartContractConfig` in `config.py`. -/
def SmartContractConfig_server_list : List (String × String) :=
  [("ubuntu2004", "192.168.0.106"), ("manjaro", "192.168.0.102")]

/-- The `config` dictionary at the bottom of `config.py`, restricted to
the `server_list` attribute the registry constructor reads. -/
def config_map : String → Option (List (String × String))
  | "default" => some Config_server_list
  | "FlaskTestConfig" => some FlaskTestConfig_server_list
  | "SmartContractConfig" => some SmartContractConfig_server_list
  | _ => none

/-- Embeds `ServerList.read_server_list_from_config` (`server.py` lines
120-128): appends one `Server` per `(name, ip)` pair of the selected
configuration, in dictionary order, with no deduplication. -/
def read_server_list_from_config (cfgList : List (String × String)) : List Server :=
  cfgList.map (fun p => Server.mk p.1 p.2 [])

/-- Embeds `ServerList.__init__` (`server.py` lines 107-118): looks the `cfg`
key up in `config.config` (`KeyError` when absent, modelled by `none`)
and loads its `server_list`. -/
def serverlist_init (cfg : String) : Option (List Server) :=
  (config_map cfg).map read_server_list_from_config

/-- Embeds `ServerList.specify_server_list` (`server.py` lines 297-318): builds
one `Server` per dictionary pair, then removes duplicated addresses with
`list(set(...))`. -/
def specify_server_list (server_list : List (String × String)) : List Server :=
  pydedup (read_server_list_from_config server_list)

/-- No two entries of a registry share an address. -/
def distinctIPs (sl : List Server) : Prop :=
  sl.Pairwise (fun a b => a.serverIP ≠ b.serverIP)

/-- Embeds the `bisect.bisect_right` inner loop: `lo, hi` bracket the search, `mid
= (lo + hi) // 2`, descend left when `x < a[mid]` else right. -/
def bisect_right_aux (a : List ℚ) (x : ℚ) (lo hi : ℕ) : ℕ :=
  if h : lo < hi then
    if x < a.getD ((lo + hi) / 2) 0 then bisect_right_aux a x lo ((lo + hi) / 2)
    else bisect_right_aux a x ((lo + hi) / 2 + 1) hi
  else lo
termination_by hi - lo
decreasing_by all_goals omega

/-- Embeds `bisect.bisect_right(a, x)` with its default bounds. -/
def bisect_right (a : List ℚ) (x : ℚ) : ℕ :=
  bisect_right_aux a x 0 a.length

/-- Embeds `DecisionEngine.cal_throughput` (`engine.py` lines 61-69): sorts
`req_time_lst` in place (the sorted list is returned as the new window
state), finds the cut for `start_time = cur_time - period` with
`bisect_right`, and returns `len - cut` (a Python `int`, hence `ℤ`). -/
def cal_throughput (req_time_lst : List ℚ) (cur_time period : ℚ) : List ℚ × ℤ :=
  let sorted := req_time_lst.mergeSort (fun a b => decide (a ≤ b))
  let idx := bisect_right sorted (cur_time - period)
  (sorted, (sorted.length : ℤ) - (idx : ℤ))

/-- Embeds the `DecisionEngine` state (`engine.py` lines 36-55). `decision_func`
holds the string `Config.decision_algorithm[decision_algorithm]`
(`"select_random_server"` or `"select_min_ping_server"` for the two
configured names); the throughput constants come from `Config`. -/
structure DecisionEngine where
  decision_func : String
  serverList : List Server
  consider_throughout : Bool
  default_throughput_period : ℚ
  expected_throughput : ℤ
  req_time_lst : List ℚ
deriving DecidableEq

/-- Nondeterminism oracle for one selection pass: the index drawn by
`random.choice` and the ping responses of a probing fan-out. -/
structure Oracle where
  randIdx : ℕ
  probes : List (PingResp × ℚ)
deriving DecidableEq

/-- Resolving `map_decision_func().get(name)` (`server.py` lines
259-273) and calling the resulting entry, also returning the post-call
server list. `dict.get` yields `None` for an unknown name and calling
`None` raises `TypeError`. -/
def runPolicyMut (name : String) (o : Oracle) (sl : List Server) :
    Except String (Option Server × List Server) :=
  if name = "select_random_server" then
    (select_random_server o.randIdx sl).map (fun s => (some s, sl))
  else if name = "select_min_ping_server" then
    select_min_ping_server_mut o.probes sl
  else .error "TypeError: NoneType object is not callable"

/-- Result of the resolved policy call without the mutated list. -/
def runPolicy (name : String) (o : Oracle) (sl : List Server) :
    Except String (Option Server) :=
  (runPolicyMut name o sl).map (·.1)

/-- Embeds `DecisionEngine._choose_server_according_to_func` (`engine.py`
lines 73-82): passes the policy result through, logging on `None`. -/
def choose_server_according_to_func (res : Except String (Option Server)) :
    Except String (Option Server) :=
  match res with
  | .error e => .error e
  | .ok none => .ok none
  | .ok (some s) => .ok (some s)

/-- Embeds `DecisionEngine._choose_server_except_localhost` (`engine.py` lines
87-95): deep-copy the registry, `remove_ip("127.0.0.1")` on the copy
(`ValueError` when absent), answer `None` when the copy became empty,
otherwise run the configured policy on the copy. -/
def choose_server_except_localhost (o : Oracle) (de : DecisionEngine) :
    Except String (Option Server) :=
  match removeFirstIP "127.0.0.1" de.serverList with
  | none => .error "ValueError: x not in list"
  | some removed =>
      if removed.length = 0 then .ok none
      else runPolicy de.decision_func o removed

/-- Variant of `_choose_server_except_localhost` with the engine's registry state
threaded explicitly: `copy.deepcopy(self.server_list)` yields an
independent value, so the removal and the probe appends performed by
the policy act on the copy (`removed`, then `mutatedCopy`), which is
discarded; the second component is the engine's registry after the
call. -/
def choose_server_except_localhost_st (o : Oracle) (de : DecisionEngine) :
    Except String (Option Server) × List Server :=
  let new_server_list := de.serverList
  match removeFirstIP "127.0.0.1" new_server_list with
  | none => (.error "ValueError: x not in list", de.serverList)
  | some removed =>
      if removed.length = 0 then (.ok none, de.serverList)
      else
        match runPolicyMut de.decision_func o removed with
        | .error e => (.error e, de.serverList)
        | .ok r => (.ok r.1, de.serverList)

/-- Embeds `DecisionEngine.choose_server` (`engine.py` lines 110-132): when
`consider_throughout` is set and the registry holds the loop-back
address, compare `cal_throughput()` against `expected_throughput`;
above the threshold select among the non-local servers, otherwise
answer a fresh `Server("LocalDevice", "127.0.0.1")` directly. In every
other case run the configured policy on the full registry. -/
def choose_server (o : Oracle) (cur_time : ℚ) (de : DecisionEngine) :
    Except String (Option Server) :=
  if de.consider_throughout && contains_ip "127.0.0.1" de.serverList then
    if (cal_throughput de.req_time_lst cur_time de.default_throughput_period).2 >
        de.expected_throughput then
      choose_server_except_localhost o de
    else .ok (some (Server.mk "LocalDevice" "127.0.0.1" []))
  else
    choose_server_according_to_func (runPolicy de.decision_func o de.serverList)

/-- Python truthiness of the optional `ip` argument of `submit_task`:
`None` and the empty string are falsy. -/
def pyTruthyStr : Option String → Bool
  | none => false
  | some s => decide (s ≠ "")

/-- Embeds the `TaskInfo` named tuple from `engine.py`. -/
structure TaskInfo where
  server : Server
  task : String
  port : ℤ
deriving DecidableEq

/-- Embeds `DecisionEngine.submit_task` (`engine.py` lines 138-147): an
explicit truthy `ip` short-circuits selection with a pseudo-server
`Server("UserSpecific", ip)`; otherwise `choose_server` runs. `None`
from selection aborts the submission (modelled `.ok none`); otherwise
the produced `TaskInfo` and the chosen address are returned. -/
def submit_task (o : Oracle) (cur_time : ℚ) (de : DecisionEngine)
    (task : String) (port : ℤ) (ip : Option String) :
    Except String (Option (TaskInfo × String)) :=
  let chosen : Except String (Option Server) :=
    if pyTruthyStr ip then .ok (some (Server.mk "UserSpecific" (ip.getD "") []))
    else choose_server o cur_time de
  match chosen with
  | .error e => .error e
  | .ok none => .ok none
  | .ok (some s) => .ok (some (TaskInfo.mk s task port, s.serverIP))

/-! Lemmas about the embedded operations. -/

/-- A probe never changes a server's address. -/
theorem test_availability_ip (pr : PingResp × ℚ) (s : Server) :
    (test_availability pr s).1.serverIP = s.serverIP := by
  rcases pr with ⟨resp, t⟩
  cases resp with
  | falseResp => rfl
  | noneResp => rfl
  | delayResp q => by_cases h : q = 0 <;> simp [test_availability, h]

/-- A probe appends one record, so the log is never empty afterwards. -/
theorem test_availability_ne_nil (pr : PingResp × ℚ) (s : Server) :
    (test_availability pr s).1.availability ≠ [] := by
  rcases pr with ⟨resp, t⟩
  cases resp with
  | falseResp => simp [test_availability]
  | noneResp => simp [test_availability]
  | delayResp q => by_cases h : q = 0 <;> simp [test_availability, h]

/-- Deduplication leaves no repeated addresses. -/
theorem pydedup_distinct (l : List Server) : distinctIPs (pydedup l) := by
  induction l with
  | nil => exact List.Pairwise.nil
  | cons s rest ih =>
      refine List.Pairwise.cons (fun b hb => ?_) (ih.filter _)
      rcases List.mem_filter.mp hb with ⟨_, hb2⟩
      simp only [decide_eq_true_eq] at hb2
      exact fun h => hb2 h.symm

/-- Deduplication preserves which addresses are present. -/
theorem mem_ip_pydedup (l : List Server) (ip : String) :
    (∃ s ∈ pydedup l, s.serverIP = ip) ↔ (∃ s ∈ l, s.serverIP = ip) := by
  induction l with
  | nil => simp [pydedup]
  | cons s rest ih =>
      simp only [pydedup, List.mem_cons]
      constructor
      · rintro ⟨t, ht, hip⟩
        rcases ht with rfl | ht
        · exact ⟨t, Or.inl rfl, hip⟩
        · rcases List.mem_filter.mp ht with ⟨ht1, _⟩
          rcases ih.mp ⟨t, ht1, hip⟩ with ⟨u, hu, hu2⟩
          exact ⟨u, Or.inr hu, hu2⟩
      · rintro ⟨t, ht, hip⟩
        rcases ht with rfl | ht
        · exact ⟨t, Or.inl rfl, hip⟩
        · by_cases hsame : ip = s.serverIP
          · exact ⟨s, Or.inl rfl, hsame.symm⟩
          · rcases ih.mpr ⟨t, ht, hip⟩ with ⟨u, hu, hu2⟩
            refine ⟨u, Or.inr (List.mem_filter.mpr ⟨hu, ?_⟩), hu2⟩
            simp only [decide_eq_true_eq]
            rw [hu2]
            exact hsame

/-- C5: `update_server_list_using_list` keeps exactly the re-probed old
servers whose probe succeeded and the new candidates whose probe
succeeded, and the result has no duplicated address. -/
theorem update_server_list_spec (oldProbes newProbes : List (PingResp × ℚ))
    (lst : List String) (server_name : String) (sl : List Server)
    (_h1 : oldProbes.length = sl.length) (_h2 : newProbes.length = lst.length) :
    (∀ ip : String,
      (∃ s ∈ update_server_list_using_list oldProbes newProbes lst server_name sl,
          s.serverIP = ip) ↔
      ((∃ p ∈ sl.zip oldProbes, (test_availability p.2 p.1).2 = true ∧ p.1.serverIP = ip) ∨
       (∃ p ∈ lst.zip newProbes,
          (test_availability p.2 (Server.mk server_name p.1 [])).2 = true ∧ p.1 = ip))) ∧
    distinctIPs (update_server_list_using_list oldProbes newProbes lst server_name sl) := by
  constructor
  · intro ip
    unfold update_server_list_using_list
    rw [mem_ip_pydedup]
    constructor
    · rintro ⟨s, hs, hip⟩
      rcases List.mem_append.mp hs with hs | hs
      · rcases List.mem_filterMap.mp hs with ⟨p, hp, hfp⟩
        simp only at hfp
        split at hfp
        · left
          refine ⟨p, hp, by assumption, ?_⟩
          rw [← hip]
          cases hfp
          exact (test_availability_ip p.2 p.1).symm
        · cases hfp
      · rcases List.mem_filterMap.mp hs with ⟨p, hp, hfp⟩
        simp only at hfp
        split at hfp
        · right
          refine ⟨p, hp, by assumption, ?_⟩
          rw [← hip]
          cases hfp
          exact (test_availability_ip p.2 (Server.mk server_name p.1 [])).symm
        · cases hfp
    · rintro (⟨p, hp, hok, hip⟩ | ⟨p, hp, hok, hip⟩)
      · refine ⟨(test_availability p.2 p.1).1, List.mem_append.mpr (Or.inl ?_), ?_⟩
        · exact List.mem_filterMap.mpr ⟨p, hp, by simp only [hok]; rfl⟩
        · rw [test_availability_ip]; exact hip
      · refine ⟨(test_availability p.2 (Server.mk server_name p.1 [])).1,
          List.mem_append.mpr (Or.inr ?_), ?_⟩
        · exact List.mem_filterMap.mpr ⟨p, hp, by simp only [hok]; rfl⟩
        · rw [test_availability_ip]; exact hip
  · exact pydedup_distinct _

/-- Closed instance of the C5 theorem: one unreachable old server, one
reachable duplicated candidate. -/
theorem update_server_list_spec_witness :
    ([(PingResp.falseResp, (1 : ℚ))].length = [Server.mk "A" "10.0.0.1" []].length) ∧
    ([(PingResp.delayResp 7, (2 : ℚ)), (PingResp.delayResp 7, 3)].length =
      ["10.0.0.9", "10.0.0.9"].length) ∧
    ((∀ ip : String,
      (∃ s ∈ update_server_list_using_list [(PingResp.falseResp, 1)]
          [(PingResp.delayResp 7, 2), (PingResp.delayResp 7, 3)]
          ["10.0.0.9", "10.0.0.9"] "AddedByUser" [Server.mk "A" "10.0.0.1" []],
          s.serverIP = ip) ↔
      ((∃ p ∈ [Server.mk "A" "10.0.0.1" []].zip [(PingResp.falseResp, (1 : ℚ))],
          (test_availability p.2 p.1).2 = true ∧ p.1.serverIP = ip) ∨
       (∃ p ∈ ["10.0.0.9", "10.0.0.9"].zip
            [(PingResp.delayResp 7, (2 : ℚ)), (PingResp.delayResp 7, 3)],
          (test_availability p.2 (Server.mk "AddedByUser" p.1 [])).2 = true ∧ p.1 = ip))) ∧
    distinctIPs (update_server_list_using_list [(PingResp.falseResp, 1)]
        [(PingResp.delayResp 7, 2), (PingResp.delayResp 7, 3)]
        ["10.0.0.9", "10.0.0.9"] "AddedByUser" [Server.mk "A" "10.0.0.1" []])) :=
  ⟨rfl, rfl,
    update_server_list_spec [(PingResp.falseResp, 1)]
      [(PingResp.delayResp 7, 2), (PingResp.delayResp 7, 3)]
      ["10.0.0.9", "10.0.0.9"] "AddedByUser" [Server.mk "A" "10.0.0.1" []] rfl rfl⟩

/-- C6: the three registry-building operations — loading any of the
configurations of `config.py`, refreshing from an address list, and the
`specify_server_list` constructor — yield a registry with no two
entries sharing an address. -/
theorem registry_distinct_invariant :
    (∀ cfg l, config_map cfg = some l → distinctIPs (read_server_list_from_config l)) ∧
    (∀ oldProbes newProbes lst server_name sl,
      distinctIPs (update_server_list_using_list oldProbes newProbes lst server_name sl)) ∧
    (∀ d, distinctIPs (specify_server_list d)) := by
  refine ⟨?_, ?_, ?_⟩
  · intro cfg l h
    unfold config_map at h
    split at h
    · cases h; unfold distinctIPs; decide
    · cases h; unfold distinctIPs; decide
    · cases h; unfold distinctIPs; decide
    · cases h
  · intro oldProbes newProbes lst server_name sl
    exact pydedup_distinct _
  · intro d
    exact pydedup_distinct _

/-- After the fan-out probe pass, every server's log is non-empty, so
the scan's `availability[0]` read cannot raise. -/
theorem probeAll_avail_ne (probes : List (PingResp × ℚ)) (sl : List Server)
    (h : probes.length = sl.length) :
    ∀ s ∈ probeAll probes sl, s.availability ≠ [] := by
  induction sl generalizing probes with
  | nil => intro s hs; simp [probeAll] at hs
  | cons s0 rest ih =>
      cases probes with
      | nil => cases h
      | cons p ps =>
          intro s hs
          simp only [probeAll, List.zipWith_cons_cons] at hs
          rcases List.mem_cons.mp hs with rfl | hs
          · exact test_availability_ne_nil p s0
          · exact ih ps (by simpa using h) s hs

/-- Full description of the scan loop of `select_min_ping_server`: when
every consulted log entry exists, either no consulted float delay beats
the running minimum `m` and the running best is answered, or the list
splits around the first server attaining the overall minimum consulted
float delay below `m`. -/
theorem scanMin_cases (l : List Server) :
    ∀ (m : ℚ) (best : Option Server), (∀ s ∈ l, s.availability ≠ []) →
    (scanMin l m best = .ok best ∧
      ∀ s ∈ l, ∀ q, consultedFloat s = some q → m ≤ q) ∨
    (∃ pre s suf q, l = pre ++ s :: suf ∧ consultedFloat s = some q ∧ q < m ∧
      scanMin l m best = .ok (some s) ∧
      (∀ s2 ∈ pre, ∀ q2, consultedFloat s2 = some q2 → q < q2) ∧
      (∀ s2 ∈ suf, ∀ q2, consultedFloat s2 = some q2 → q ≤ q2)) := by
  induction l with
  | nil => intro m best _; left; exact ⟨rfl, by simp⟩
  | cons s rest ih =>
      intro m best hne
      have hhead : s.availability ≠ [] := hne s (List.mem_cons_self s rest)
      rcases hh : s.availability.head? with _ | info
      · exact absurd (List.head?_eq_none_iff.mp hh) hhead
      have hrest : ∀ t ∈ rest, t.availability ≠ [] :=
        fun t ht => hne t (List.mem_cons_of_mem s ht)
      rcases hd : info.delay with n | q
      · -- consulted delay is an int: server skipped
        have hstep : scanMin (s :: rest) m best = scanMin rest m best := by
          simp only [scanMin, hh, hd]
        have hcf : consultedFloat s = none := by
          simp only [consultedFloat, hh, hd]
        rcases ih m best hrest with ⟨heq, hall⟩ | ⟨pre, w, suf, qw, hsplit, hcw, hlt, heq, hpre, hsuf⟩
        · left
          refine ⟨hstep.trans heq, ?_⟩
          intro t ht q hq
          rcases List.mem_cons.mp ht with rfl | ht
          · rw [hcf] at hq; cases hq
          · exact hall t ht q hq
        · right
          refine ⟨s :: pre, w, suf, qw, by rw [hsplit]; rfl, hcw, hlt, hstep.trans heq, ?_, hsuf⟩
          intro t ht q2 hq2
          rcases List.mem_cons.mp ht with rfl | ht
          · rw [hcf] at hq2; cases hq2
          · exact hpre t ht q2 hq2
      · -- consulted delay is a float q
        have hcf : consultedFloat s = some q := by
          simp only [consultedFloat, hh, hd]
        by_cases hq : q < m
        · -- server becomes the running best with new minimum q
          have hstep : scanMin (s :: rest) m best = scanMin rest q (some s) := by
            simp only [scanMin, hh, hd]
            rw [if_pos hq]
          rcases ih q (some s) hrest with ⟨heq, hall⟩ | ⟨pre, w, suf, qw, hsplit, hcw, hlt, heq, hpre, hsuf⟩
          · right
            exact ⟨[], s, rest, q, rfl, hcf, hq, hstep.trans heq, by simp, hall⟩
          · right
            refine ⟨s :: pre, w, suf, qw, by rw [hsplit]; rfl, hcw, lt_trans hlt hq,
              hstep.trans heq, ?_, hsuf⟩
            intro t ht q2 hq2
            rcases List.mem_cons.mp ht with rfl | ht
            · rw [hcf] at hq2; cases hq2; exact hlt
            · exact hpre t ht q2 hq2
        · -- q does not beat the running minimum
          have hstep : scanMin (s :: rest) m best = scanMin rest m best := by
            simp only [scanMin, hh, hd]
            rw [if_neg hq]
          rcases ih m best hrest with ⟨heq, hall⟩ | ⟨pre, w, suf, qw, hsplit, hcw, hlt, heq, hpre, hsuf⟩
          · left
            refine ⟨hstep.trans heq, ?_⟩
            intro t ht q2 hq2
            rcases List.mem_cons.mp ht with rfl | ht
            · rw [hcf] at hq2; cases hq2; exact le_of_not_lt hq
            · exact hall t ht q2 hq2
          · right
            refine ⟨s :: pre, w, suf, qw, by rw [hsplit]; rfl, hcw, hlt, hstep.trans heq, ?_, hsuf⟩
            intro t ht q2 hq2
            rcases List.mem_cons.mp ht with rfl | ht
            · rw [hcf] at hq2; cases hq2; exact lt_of_lt_of_le hlt (le_of_not_lt hq)
            · exact hpre t ht q2 hq2

/-- Any server the scan answers has a consulted float delay below the
initial running minimum. -/
theorem scanMin_ok_some (l : List Server) :
    ∀ (m : ℚ) (best r : Option Server), scanMin l m best = .ok r →
    r = best ∨ ∃ s q, r = some s ∧ consultedFloat s = some q ∧ q < m := by
  induction l with
  | nil =>
      intro m best r h
      simp only [scanMin, Except.ok.injEq] at h
      exact Or.inl h.symm
  | cons s rest ih =>
      intro m best r h
      rcases hh : s.availability.head? with _ | info
      · simp only [scanMin, hh] at h; cases h
      rcases hd : info.delay with n | q
      · simp only [scanMin, hh, hd] at h
        exact ih m best r h
      · simp only [scanMin, hh, hd] at h
        by_cases hq : q < m
        · rw [if_pos hq] at h
          have hcf : consultedFloat s = some q := by
            simp only [consultedFloat, hh, hd]
          rcases ih q (some s) r h with rfl | ⟨s2, q2, rfl, hc2, hlt2⟩
          · exact Or.inr ⟨s, q, rfl, hcf, hq⟩
          · exact Or.inr ⟨s2, q2, rfl, hc2, lt_trans hlt2 hq⟩
        · rw [if_neg hq] at h
          exact ih m best r h

/-- Closed instance of the C6 theorem at each operation. -/
theorem registry_distinct_invariant_witness :
    distinctIPs (read_server_list_from_config Config_server_list) ∧
    distinctIPs (update_server_list_using_list [] [] [] "AddedByUser" []) ∧
    distinctIPs (specify_server_list [("a", "1.1.1.1"), ("b", "1.1.1.1")]) :=
  ⟨registry_distinct_invariant.1 "default" Config_server_list rfl,
   registry_distinct_invariant.2.1 [] [] [] "AddedByUser" [],
   registry_distinct_invariant.2.2 [("a", "1.1.1.1"), ("b", "1.1.1.1")]⟩

/-- C1 (amended): whenever some server's consulted entry — the
first-appended record `availability[0]`, not the most recent — carries
a float delay below the 3000.0 ms default after the probe pass, the
min-latency policy returns the first server (in registration order)
attaining the smallest consulted float delay; consulted delays at or
above 3000.0 ms and non-float consulted delays are ignored. -/
theorem select_min_ping_spec (probes : List (PingResp × ℚ)) (sl : List Server)
    (hlen : probes.length = sl.length)
    (hEx : ∃ s ∈ probeAll probes sl, ∃ q, consultedFloat s = some q ∧ q < 3000) :
    ∃ pre s suf q,
      probeAll probes sl = pre ++ s :: suf ∧
      select_min_ping_server probes sl = .ok (some s) ∧
      consultedFloat s = some q ∧ q < 3000 ∧
      (∀ s2 ∈ probeAll probes sl, ∀ q2, consultedFloat s2 = some q2 → q ≤ q2) ∧
      (∀ s2 ∈ pre, ∀ q2, consultedFloat s2 = some q2 → q < q2) := by
  have hne : ∀ s ∈ probeAll probes sl, s.availability ≠ [] :=
    probeAll_avail_ne probes sl hlen
  rcases scanMin_cases (probeAll probes sl) 3000 none hne with
    ⟨_, hall⟩ | ⟨pre, w, suf, qw, hsplit, hcw, hlt, heq, hpre, hsuf⟩
  · rcases hEx with ⟨s, hs, q, hq, hq3⟩
    exact absurd (hall s hs q hq) (not_le.mpr hq3)
  · refine ⟨pre, w, suf, qw, hsplit, ?_, hcw, hlt, ?_, hpre⟩
    · cases sl with
      | nil =>
          rw [show probeAll probes [] = [] by simp [probeAll]] at hsplit
          cases pre <;> cases hsplit
      | cons s0 tl =>
          simp [select_min_ping_server, select_min_ping_server_mut, heq, Except.map]
    · intro s2 hs2 q2 hq2
      rw [hsplit] at hs2
      rcases List.mem_append.mp hs2 with h | h
      · exact le_of_lt (hpre s2 h q2 hq2)
      · rcases List.mem_cons.mp h with rfl | h
        · rw [hcw] at hq2
          injection hq2 with h2
          rw [h2]
        · exact hsuf s2 h q2 hq2

/-- Closed instance of the C1 theorem: single fresh server probed at
5.0 ms. -/
theorem select_min_ping_spec_witness :
    ([(PingResp.delayResp 5, (1 : ℚ))].length = [Server.mk "A" "10.0.0.1" []].length) ∧
    (∃ s ∈ probeAll [(PingResp.delayResp 5, 1)] [Server.mk "A" "10.0.0.1" []],
      ∃ q, consultedFloat s = some q ∧ q < 3000) ∧
    (∃ pre s suf q,
      probeAll [(PingResp.delayResp 5, 1)] [Server.mk "A" "10.0.0.1" []] =
        pre ++ s :: suf ∧
      select_min_ping_server [(PingResp.delayResp 5, 1)]
        [Server.mk "A" "10.0.0.1" []] = .ok (some s) ∧
      consultedFloat s = some q ∧ q < 3000 ∧
      (∀ s2 ∈ probeAll [(PingResp.delayResp 5, 1)] [Server.mk "A" "10.0.0.1" []],
        ∀ q2, consultedFloat s2 = some q2 → q ≤ q2) ∧
      (∀ s2 ∈ pre, ∀ q2, consultedFloat s2 = some q2 → q < q2)) := by
  have hex : ∃ s ∈ probeAll [(PingResp.delayResp 5, 1)] [Server.mk "A" "10.0.0.1" []],
      ∃ q, consultedFloat s = some q ∧ q < 3000 :=
    ⟨Server.mk "A" "10.0.0.1" [ServerInfo.mk true (PyNum.floatVal 5) 1],
      List.mem_singleton.mpr rfl, 5, rfl, by norm_num⟩
  exact ⟨rfl, hex, select_min_ping_spec _ _ rfl hex⟩

/-- C1 counterexample, two explicit registries. First: a single fresh
server whose probe succeeds at exactly 3000.0 ms — it is available and
is the unique minimum-latency available server, yet the policy answers
none. Second: server A holds an older successful record (5.0 ms) and
its fresh probe fails while fresh server B succeeds at 50.0 ms — the
only available server is B, yet the policy answers A because it reads
`availability[0]` instead of the most recent record. -/
theorem select_min_ping_counterexample :
    ((test_availability (PingResp.delayResp 3000, 1) (Server.mk "A" "10.0.0.1" [])).2
        = true ∧
      select_min_ping_server [(PingResp.delayResp 3000, 1)]
        [Server.mk "A" "10.0.0.1" []] = .ok none) ∧
    ((test_availability (PingResp.falseResp, 1)
        (Server.mk "A" "10.0.0.1" [ServerInfo.mk true (PyNum.floatVal 5) 0])).2
        = false ∧
      (test_availability (PingResp.delayResp 50, 1) (Server.mk "B" "10.0.0.2" [])).2
        = true ∧
      select_min_ping_server [(PingResp.falseResp, 1), (PingResp.delayResp 50, 1)]
        [Server.mk "A" "10.0.0.1" [ServerInfo.mk true (PyNum.floatVal 5) 0],
         Server.mk "B" "10.0.0.2" []]
        = .ok (some (Server.mk "A" "10.0.0.1"
            [ServerInfo.mk true (PyNum.floatVal 5) 0,
             ServerInfo.mk false (PyNum.intVal 0) 1]))) :=
  ⟨⟨rfl, rfl⟩, rfl, rfl, rfl⟩

/-- C7: a non-empty registry whose single server fails its fresh probe
(so no server is available) still yields a chosen server, because the
scan consults the stale first record `availability[0]` (here an earlier
successful 5.0 ms probe) instead of the fresh result. -/
theorem select_min_ping_all_unavailable_stale :
    ((test_availability (PingResp.falseResp, 1)
        (Server.mk "A" "10.0.0.1" [ServerInfo.mk true (PyNum.floatVal 5) 0])).2
        = false) ∧
    select_min_ping_server [(PingResp.falseResp, 1)]
        [Server.mk "A" "10.0.0.1" [ServerInfo.mk true (PyNum.floatVal 5) 0]]
      = .ok (some (Server.mk "A" "10.0.0.1"
          [ServerInfo.mk true (PyNum.floatVal 5) 0,
           ServerInfo.mk false (PyNum.intVal 0) 1])) :=
  ⟨rfl, rfl⟩

/-- C9: the 3000.0 ms cap. Any server the min-latency policy returns
has a consulted float delay strictly below 3000.0 ms, and when every
consulted float delay is at or above the cap the policy answers none
even if consulted-available servers exist. -/
theorem select_min_ping_cap (probes : List (PingResp × ℚ)) (sl : List Server) :
    (∀ s, select_min_ping_server probes sl = .ok (some s) →
      ∃ q, consultedFloat s = some q ∧ q < 3000) ∧
    (probes.length = sl.length → sl ≠ [] →
      (∀ s ∈ probeAll probes sl, ∀ q, consultedFloat s = some q → 3000 ≤ q) →
      select_min_ping_server probes sl = .ok none) := by
  constructor
  · intro s h
    cases sl with
    | nil => exact Except.noConfusion h
    | cons s0 tl =>
        have h' : scanMin (probeAll probes (s0 :: tl)) 3000 none = .ok (some s) := by
          rcases hscan : scanMin (probeAll probes (s0 :: tl)) 3000 none with e | r
          · simp only [select_min_ping_server, select_min_ping_server_mut,
              List.isEmpty_cons, Bool.false_eq_true, if_false, hscan, Except.map] at h
            exact h
          · simp only [select_min_ping_server, select_min_ping_server_mut,
              List.isEmpty_cons, Bool.false_eq_true, if_false, hscan, Except.map] at h
            exact h
        rcases scanMin_ok_some _ 3000 none (some s) h' with h0 | ⟨s2, q, hss, hcf, hlt⟩
        · cases h0
        · injection hss with hss
          rw [hss]
          exact ⟨q, hcf, hlt⟩
  · intro hlen hslne hall
    have hnav := probeAll_avail_ne probes sl hlen
    rcases scanMin_cases (probeAll probes sl) 3000 none hnav with
      ⟨heq, _⟩ | ⟨pre, w, suf, qw, hsplit, hcw, hlt, _, _, _⟩
    · cases sl with
      | nil => cases hslne rfl
      | cons s0 tl =>
          simp [select_min_ping_server, select_min_ping_server_mut, heq, Except.map]
    · have hw : w ∈ probeAll probes sl := by
        rw [hsplit]
        exact List.mem_append.mpr (Or.inr (List.mem_cons_self _ _))
      exact absurd (hall w hw qw hcw) (not_le.mpr hlt)

/-- Closed instance of the C9 theorem: a 5.0 ms probe is selectable, a
3000.0 ms probe makes the policy answer none. -/
theorem select_min_ping_cap_witness :
    (∃ q, consultedFloat (Server.mk "A" "10.0.0.1"
        [ServerInfo.mk true (PyNum.floatVal 5) 1]) = some q ∧ q < 3000) ∧
    select_min_ping_server [(PingResp.delayResp 3000, 1)]
        [Server.mk "A" "10.0.0.1" []] = .ok none := by
  constructor
  · exact (select_min_ping_cap [(PingResp.delayResp 5, 1)]
      [Server.mk "A" "10.0.0.1" []]).1 _ rfl
  · refine (select_min_ping_cap [(PingResp.delayResp 3000, 1)]
      [Server.mk "A" "10.0.0.1" []]).2 rfl (by simp) ?_
    intro s hs q hq
    rw [show probeAll [(PingResp.delayResp 3000, 1)] [Server.mk "A" "10.0.0.1" []] =
        [Server.mk "A" "10.0.0.1" [ServerInfo.mk true (PyNum.floatVal 3000) 1]]
      from rfl] at hs
    rcases List.mem_singleton.mp hs with rfl
    have h30 : consultedFloat (Server.mk "A" "10.0.0.1"
        [ServerInfo.mk true (PyNum.floatVal 3000) 1]) = some (3000 : ℚ) := rfl
    rw [h30] at hq
    injection hq with hq
    rw [← hq]

/-- Sorted lists are monotone in their positional reads. -/
theorem sorted_getD_le (a : List ℚ) (hs : a.Pairwise (· ≤ ·)) {i j : ℕ}
    (hij : i ≤ j) (hj : j < a.length) : a.getD i 0 ≤ a.getD j 0 := by
  rcases eq_or_lt_of_le hij with rfl | hlt
  · exact le_refl _
  · have hi : i < a.length := lt_trans hlt hj
    rw [List.getD_eq_getElem a 0 hi, List.getD_eq_getElem a 0 hj]
    exact List.pairwise_iff_getElem.mp hs i j hi hj hlt

/-- Loop invariant of the binary search: on a sorted slice the returned
cut separates the entries at most `x` from those above `x`. -/
theorem bisect_right_aux_spec (a : List ℚ) (x : ℚ) (hs : a.Pairwise (· ≤ ·)) :
    ∀ lo hi : ℕ, lo ≤ hi → hi ≤ a.length →
    (∀ i, i < lo → a.getD i 0 ≤ x) →
    (∀ i, hi ≤ i → i < a.length → x < a.getD i 0) →
    bisect_right_aux a x lo hi ≤ a.length ∧
    (∀ i, i < bisect_right_aux a x lo hi → a.getD i 0 ≤ x) ∧
    (∀ i, bisect_right_aux a x lo hi ≤ i → i < a.length → x < a.getD i 0) := by
  intro lo hi
  induction lo, hi using bisect_right_aux.induct a x with
  | case1 lo hi hlohi hxmid ih =>
      intro _ hhilen hlow hhigh
      have hred : bisect_right_aux a x lo hi = bisect_right_aux a x lo ((lo + hi) / 2) := by
        rw [bisect_right_aux]
        rw [dif_pos hlohi, if_pos hxmid]
      rw [hred]
      refine ih (by omega) (by omega) hlow ?_
      intro i hi1 hi2
      rcases Nat.lt_or_ge i hi with hih | hih
      · calc x < a.getD ((lo + hi) / 2) 0 := hxmid
          _ ≤ a.getD i 0 := sorted_getD_le a hs hi1 hi2
      · exact hhigh i hih hi2
  | case2 lo hi hlohi hxmid ih =>
      intro _ hhilen hlow hhigh
      have hred : bisect_right_aux a x lo hi = bisect_right_aux a x ((lo + hi) / 2 + 1) hi := by
        rw [bisect_right_aux]
        rw [dif_pos hlohi, if_neg hxmid]
      rw [hred]
      refine ih (by omega) hhilen ?_ hhigh
      intro i hi1
      calc a.getD i 0 ≤ a.getD ((lo + hi) / 2) 0 :=
            sorted_getD_le a hs (by omega) (by omega)
        _ ≤ x := le_of_not_lt hxmid
  | case3 lo hi hlohi =>
      intro hlole hhilen hlow hhigh
      have hred : bisect_right_aux a x lo hi = lo := by
        rw [bisect_right_aux]
        rw [dif_neg hlohi]
      rw [hred]
      have : lo = hi := by omega
      subst this
      exact ⟨by omega, hlow, hhigh⟩

/-- A list whose first `r` positions satisfy `p` and whose remaining
positions refute `p` has exactly `r` entries satisfying `p`. -/
theorem countP_eq_of_split (p : ℚ → Bool) :
    ∀ (l : List ℚ) (r : ℕ), r ≤ l.length →
    (∀ i, i < r → p (l.getD i 0) = true) →
    (∀ i, r ≤ i → i < l.length → p (l.getD i 0) = false) →
    l.countP p = r := by
  intro l
  induction l with
  | nil =>
      intro r hr _ _
      simp at hr
      simp [hr]
  | cons y t ih =>
      intro r hr h1 h2
      cases r with
      | zero =>
          have hy : p y = false := by simpa using h2 0 (Nat.zero_le 0) (by simp)
          have ht : t.countP p = 0 := by
            refine ih 0 (Nat.zero_le _) (by omega) ?_
            intro i _ hilen
            simpa using h2 (i + 1) (Nat.zero_le _) (by simpa using Nat.succ_lt_succ hilen)
          rw [List.countP_cons, ht, hy]
          simp
      | succ r2 =>
          have hy : p y = true := by simpa using h1 0 (Nat.succ_pos r2)
          have ht : t.countP p = r2 := by
            refine ih r2 (by simpa using hr) ?_ ?_
            · intro i hi
              simpa using h1 (i + 1) (Nat.succ_lt_succ hi)
            · intro i hi1 hi2
              simpa using h2 (i + 1) (Nat.succ_le_succ hi1) (by simpa using Nat.succ_lt_succ hi2)
          rw [List.countP_cons, ht, hy]
          simp

/-- C3: `cal_throughput` returns exactly the number of recorded
timestamps strictly newer than `cur_time - period`, and the value is
never negative. -/
theorem cal_throughput_spec (lst : List ℚ) (cur period : ℚ) :
    (cal_throughput lst cur period).2 =
      ((lst.countP (fun t => decide (cur - period < t)) : ℕ) : ℤ) ∧
    0 ≤ (cal_throughput lst cur period).2 := by
  have htrans : ∀ (a b c : ℚ), decide (a ≤ b) = true → decide (b ≤ c) = true →
      decide (a ≤ c) = true := by
    intro a b c h1 h2
    simp only [decide_eq_true_eq] at h1 h2 ⊢
    exact le_trans h1 h2
  have htot : ∀ (a b : ℚ), (decide (a ≤ b) || decide (b ≤ a)) = true := by
    intro a b
    simpa using le_total a b
  have hsorted : (lst.mergeSort (fun a b => decide (a ≤ b))).Pairwise
      (fun a b : ℚ => a ≤ b) :=
    (List.sorted_mergeSort htrans htot lst).imp (by
      intro a b h
      simpa using h)
  have hspec := bisect_right_aux_spec (lst.mergeSort (fun a b => decide (a ≤ b)))
    (cur - period) hsorted 0 (lst.mergeSort (fun a b => decide (a ≤ b))).length
    (Nat.zero_le _) (le_refl _) (by omega) (by omega)
  rcases hspec with ⟨hle, hlow, hhigh⟩
  have hcut : (lst.mergeSort (fun a b => decide (a ≤ b))).countP
      (fun t => decide (t ≤ cur - period)) =
      bisect_right (lst.mergeSort (fun a b => decide (a ≤ b))) (cur - period) := by
    refine countP_eq_of_split _ _ _ hle ?_ ?_
    · intro i hi
      simpa using hlow i hi
    · intro i hi1 hi2
      have := hhigh i hi1 hi2
      simp only [decide_eq_false_iff_not, not_le]
      exact this
  have hsplitlen := List.length_eq_countP_add_countP
    (fun t : ℚ => decide (t ≤ cur - period)) (lst.mergeSort (fun a b => decide (a ≤ b)))
  have hcompl : (lst.mergeSort (fun a b => decide (a ≤ b))).countP
      (fun t : ℚ => decide ¬(decide (t ≤ cur - period) = true)) =
      (lst.mergeSort (fun a b => decide (a ≤ b))).countP
      (fun t : ℚ => decide (cur - period < t)) := by
    refine List.countP_congr ?_
    intro t _
    simp [not_le]
  have hperm : (lst.mergeSort (fun a b => decide (a ≤ b))).countP
      (fun t : ℚ => decide (cur - period < t)) =
      lst.countP (fun t : ℚ => decide (cur - period < t)) :=
    (List.mergeSort_perm lst (fun a b => decide (a ≤ b))).countP_eq _
  have hval : (cal_throughput lst cur period).2 =
      ((lst.mergeSort (fun a b => decide (a ≤ b))).length : ℤ) -
      (bisect_right (lst.mergeSort (fun a b => decide (a ≤ b))) (cur - period) : ℤ) := rfl
  rw [hcompl, hperm] at hsplitlen
  rw [hval, ← hcut, hsplitlen]
  constructor
  · push_cast
    ring
  · push_cast
    omega

/-- A registry containing an address always yields a snapshot when that
address is removed. -/
theorem contains_removeFirst (ip : String) (sl : List Server)
    (h : contains_ip ip sl = true) : ∃ l2, removeFirstIP ip sl = some l2 := by
  induction sl with
  | nil => simp [contains_ip] at h
  | cons s rest ih =>
      by_cases hs : s.serverIP = ip
      · exact ⟨rest, by simp [removeFirstIP, hs]⟩
      · have h2 : contains_ip ip rest = true := by
          simp only [contains_ip, List.any_cons, hs, decide_False,
            Bool.false_or] at h
          exact h
        rcases ih h2 with ⟨l2, hl2⟩
        exact ⟨s :: l2, by simp [removeFirstIP, hs, hl2]⟩

/-- C2: with throughput-aware admission on and the loop-back address
registered, `choose_server` selects from the snapshot that excludes the
loop-back address — failing with none when that snapshot is empty —
exactly when the measured throughput strictly exceeds the expected
throughput; otherwise it short-circuits to the local server without
running the configured policy. -/
theorem choose_server_gate (o : Oracle) (cur : ℚ) (de : DecisionEngine)
    (hc : de.consider_throughout = true)
    (hl : contains_ip "127.0.0.1" de.serverList = true) :
    ∃ snap, removeFirstIP "127.0.0.1" de.serverList = some snap ∧
      ((cal_throughput de.req_time_lst cur de.default_throughput_period).2 >
          de.expected_throughput →
        choose_server o cur de =
          (if snap.length = 0 then .ok none
           else runPolicy de.decision_func o snap)) ∧
      (¬ (cal_throughput de.req_time_lst cur de.default_throughput_period).2 >
          de.expected_throughput →
        choose_server o cur de = .ok (some (Server.mk "LocalDevice" "127.0.0.1" []))) := by
  rcases contains_removeFirst _ _ hl with ⟨snap, hsnap⟩
  refine ⟨snap, hsnap, ?_, ?_⟩
  · intro hgt
    simp only [choose_server, hc, hl, Bool.and_self, if_true]
    rw [if_pos hgt]
    simp only [choose_server_except_localhost, hsnap]
  · intro hle
    simp only [choose_server, hc, hl, Bool.and_self, if_true]
    rw [if_neg hle]

/-- Closed instance of the C2 theorem: a registry holding only the
local device, gate enabled, empty throughput window. -/
theorem choose_server_gate_witness :
    ((DecisionEngine.mk "select_random_server" [Server.mk "L" "127.0.0.1" []]
        true 1 25 []).consider_throughout = true) ∧
    (contains_ip "127.0.0.1" (DecisionEngine.mk "select_random_server"
        [Server.mk "L" "127.0.0.1" []] true 1 25 []).serverList = true) ∧
    (∃ snap, removeFirstIP "127.0.0.1" (DecisionEngine.mk "select_random_server"
        [Server.mk "L" "127.0.0.1" []] true 1 25 []).serverList = some snap ∧
      ((cal_throughput (DecisionEngine.mk "select_random_server"
            [Server.mk "L" "127.0.0.1" []] true 1 25 []).req_time_lst 0
          (DecisionEngine.mk "select_random_server" [Server.mk "L" "127.0.0.1" []]
            true 1 25 []).default_throughput_period).2 >
          (DecisionEngine.mk "select_random_server" [Server.mk "L" "127.0.0.1" []]
            true 1 25 []).expected_throughput →
        choose_server (Oracle.mk 0 []) 0 (DecisionEngine.mk "select_random_server"
            [Server.mk "L" "127.0.0.1" []] true 1 25 []) =
          (if snap.length = 0 then .ok none
           else runPolicy (DecisionEngine.mk "select_random_server"
              [Server.mk "L" "127.0.0.1" []] true 1 25 []).decision_func
              (Oracle.mk 0 []) snap)) ∧
      (¬ (cal_throughput (DecisionEngine.mk "select_random_server"
            [Server.mk "L" "127.0.0.1" []] true 1 25 []).req_time_lst 0
          (DecisionEngine.mk "select_random_server" [Server.mk "L" "127.0.0.1" []]
            true 1 25 []).default_throughput_period).2 >
          (DecisionEngine.mk "select_random_server" [Server.mk "L" "127.0.0.1" []]
            true 1 25 []).expected_throughput →
        choose_server (Oracle.mk 0 []) 0 (DecisionEngine.mk "select_random_server"
            [Server.mk "L" "127.0.0.1" []] true 1 25 []) =
          .ok (some (Server.mk "LocalDevice" "127.0.0.1" [])))) :=
  ⟨rfl, rfl, choose_server_gate (Oracle.mk 0 []) 0
    (DecisionEngine.mk "select_random_server" [Server.mk "L" "127.0.0.1" []]
      true 1 25 []) rfl rfl⟩

/-- C8: the remote-only fallback operates on an independent deep copy —
after the call (removal of the loop-back entry and all probe appends
made by the policy included) the engine's registry is the one it
started with, and the threaded-state variant computes the same
selection as the plain one. -/
theorem choose_except_localhost_frame (o : Oracle) (de : DecisionEngine) :
    (choose_server_except_localhost_st o de).2 = de.serverList ∧
    (choose_server_except_localhost_st o de).1 = choose_server_except_localhost o de := by
  unfold choose_server_except_localhost_st choose_server_except_localhost
  rcases h : removeFirstIP "127.0.0.1" de.serverList with _ | removed
  · simp [h]
  · simp only [h]
    split
    · simp
    · rcases hr : runPolicyMut de.decision_func o removed with e | r
      · simp [hr, runPolicy, Except.map]
      · simp [hr, runPolicy, Except.map]

/-- C4: on an empty registry the selection policies raise rather than
return the selection-failure value: `random.choice` raises `IndexError`
and `ThreadPoolExecutor(max_workers=0)` raises `ValueError`, under
either admission setting, so `submit_task` propagates an exception. -/
theorem submit_task_empty_registry_raises :
    (submit_task (Oracle.mk 0 []) 0
        (DecisionEngine.mk "select_random_server" [] false 1 25 []) "t" 80 none =
      .error "IndexError: cannot choose from an empty sequence") ∧
    (submit_task (Oracle.mk 0 []) 0
        (DecisionEngine.mk "select_min_ping_server" [] false 1 25 []) "t" 80 none =
      .error "ValueError: max_workers must be greater than 0") ∧
    (submit_task (Oracle.mk 0 []) 0
        (DecisionEngine.mk "select_random_server" [] true 1 25 []) "t" 80 none =
      .error "IndexError: cannot choose from an empty sequence") ∧
    (submit_task (Oracle.mk 0 []) 0
        (DecisionEngine.mk "select_min_ping_server" [] true 1 25 []) "t" 80 none =
      .error "ValueError: max_workers must be greater than 0") :=
  ⟨rfl, rfl, rfl, rfl⟩

/-- C10: an empty-string explicit address is falsy, so `submit_task`
runs the normal selection path exactly as when no address is given. -/
theorem submit_task_empty_ip (o : Oracle) (cur : ℚ) (de : DecisionEngine)
    (task : String) (port : ℤ) :
    submit_task o cur de task port (some "") = submit_task o cur de task port none := rfl

end TEO
